import Mathlib

/-!
Shallow embedding of `src/tabconverter.py` (TabConverter): pitch model,
tab grammar parser, string/fret allocator, per-column merge orchestration
and renderer, together with theorems settling the frozen claims.

Strings from the Python source are modelled as `String` / `List Char`;
Python ints as `Int` (or `Nat` where the source value is always
non-negative); Python dicts keyed by distinct keys as association lists;
Python sets as lists with membership; a Python function that can `raise`
is modelled as returning `Option`.
-/

namespace TabConverter

/-- The chromatic table `NOTES` from the source (module-level constant,
twelve sharp-spelled names from `C` up to `B`). -/
def NOTES : List String :=
  ["C", "C#", "D", "D#", "E", "F"] ++ ["F#", "G", "G#", "A", "A#", "B"]

/-- Python `str.strip()` on a character list: drop leading and trailing
whitespace. -/
def stripChars (cs : List Char) : List Char :=
  ((cs.dropWhile Char.isWhitespace).reverse.dropWhile Char.isWhitespace).reverse

/-- Value of a non-empty, all-digit character run (used for the octave group
and for fret runs); `none` when empty or a non-digit appears, mirroring that
the regex group `(\d+)` only matches non-empty digit runs. -/
def digitsToNatAux : List Char → Nat → Option Nat
  | [], acc => some acc
  | c :: cs, acc =>
      if c.isDigit then digitsToNatAux cs (acc * 10 + (c.toNat - 48)) else none

def digitsToNat (cs : List Char) : Option Nat :=
  match cs with
  | [] => none
  | cs => digitsToNatAux cs 0

/-- The regex `^([A-G][#b]?)(\d+)$` of `note_to_semitones`: returns the two
groups (note name, octave).  The letter class is uppercase `A`-`G` only; the
accidental is optional; the octave digit run is non-empty and runs to the end
of the string.  (`[#b]?` is effectively deterministic here: if the next char
is `#` or `b` the only way the rest can match is by consuming it.) -/
def parseLabel : List Char → Option (List Char × Nat)
  | [] => none
  | c :: rest =>
      if 'A' ≤ c ∧ c ≤ 'G' then
        match rest with
        | a :: rest2 =>
            if a = '#' ∨ a = 'b' then
              (digitsToNat rest2).map (fun o => ([c, a], o))
            else
              (digitsToNat rest).map (fun o => ([c], o))
        | [] => none
      else none

/-- `note_to_semitones(note)` from the source.  On a regex match the letter
group is uppercase already, so the source's `.upper()` normalisations are
identities and are not repeated here.  Flats take `NOTES[(NOTES.index(base) - 1) % 12]`
(Python `%` on a possibly negative left operand equals `(i + 11) % 12` for
`i < 12`).  `none` models the raised `ValueError`s. -/
def note_to_semitones (note : String) : Option Nat :=
  match parseLabel (stripChars note.data) with
  | none => none
  | some (nameChars, octave) =>
      let resolved : Option String :=
        if nameChars.contains 'b' then
          match NOTES.findIdx? (· == String.mk [nameChars.headD 'C']) with
          | some i => some (NOTES.getD ((i + 11) % 12) "C")
          | none => none
        else some (String.mk nameChars)
      match resolved with
      | none => none
      | some n =>
          match NOTES.findIdx? (· == n) with
          | none => none
          | some i => some (i + octave * 12)

/-- `parse_tuning(tuning)`: map each label through `note_to_semitones`;
a failure propagates (the source raises on the first bad label). -/
def parse_tuning (tuning : List String) : Option (List Nat) :=
  tuning.mapM note_to_semitones

example : note_to_semitones "E1" = some 16 := by decide
example : note_to_semitones "E4" = some 52 := by decide
example : note_to_semitones "Cb1" = some 23 := by decide
example : note_to_semitones "B0" = some 11 := by decide
example : note_to_semitones "e1" = none := by decide
example : note_to_semitones "E#1" = none := by decide
example : parse_tuning ["E1", "E4"] = some [16, 52] := by decide

/-! ## String/Fret Allocator (`find_best_target_string`, `try_octave_shifts`)

The allocator is modelled over an already-parsed target tuning
(`List Int` of open-string pitches): the source re-runs
`parse_tuning(target_tuning)` on each call, which either yields that list or
raises before any allocation happens.  `occupied_strings` (a Python set used
only through membership) is a `List Nat`; `other_hand_frets` (a dict whose
keys are never read) is the list of its fret values.  The source's
`prefer_melody_strings` parameter is never read by either function and is
omitted.

Python float scores `region_penalty + abs(fret - (fret_min+fret_max)/2)*0.1`
are modelled by the integer `20 * region_penalty + |2*fret - (fret_min+fret_max)|`,
i.e. the exact score scaled by 20; for the magnitudes involved (penalties
0/100, frets bounded by the config) double-precision evaluation of the
source's expression is order- and tie-equivalent to the exact value, so
comparisons agree. -/

/-- Allocator configuration: the four `config.get(..., default)` keys. -/
structure Config where
  max_fret : Int := 24
  hand_separation : Int := 4
  bass_max_fret : Int := 12
  melody_min_fret : Int := 7
deriving DecidableEq

def defaultConfig : Config := {}

inductive PartType where
  | bass
  | melody
deriving DecidableEq

/-- The role-specific fret window `(fret_min, fret_max)` set at the top of
`find_best_target_string`. -/
def fretWindow (pt : PartType) (cfg : Config) : Int × Int :=
  match pt with
  | .bass => (0, cfg.bass_max_fret)
  | .melody => (cfg.melody_min_fret, cfg.max_fret)

/-- The hand-separation check: no opposing-hand fret within
`hand_separation` of `fret`.  (The source skips the loop when the dict is
empty; `List.all` on `[]` is `true`, which agrees.) -/
def handSepOK (cfg : Config) (other : List Int) (fret : Int) : Bool :=
  other.all (fun o => cfg.hand_separation ≤ |fret - o|)

/-- Region penalty: 100 when the string lies outside the role's preferred
half (`melody_start = num_strings / 2`, melody strings are indices
`≥ melody_start`), else 0. -/
def regionPenalty (pt : PartType) (numStrings tgtIdx : Nat) : Int :=
  let isMelodyString := numStrings / 2 ≤ tgtIdx
  match pt with
  | .bass => if isMelodyString then 100 else 0
  | .melody => if isMelodyString then 0 else 100

/-- Whether `idx` lies in the role's preferred string region (the acceptance
test of `try_octave_shifts`). -/
def inPreferredRegion (pt : PartType) (numStrings idx : Nat) : Bool :=
  match pt with
  | .bass => decide (idx < numStrings / 2)
  | .melody => decide (numStrings / 2 ≤ idx)

/-- One iteration of the candidate loop of `find_best_target_string` at
target string `i`: `none` when the string is occupied or some check discards
the candidate, otherwise `(scaled score, i, fret)`. -/
def candAt (np : Int) (pt : PartType) (ts : List Int) (occ : List Nat)
    (cfg : Config) (other : List Int) (i : Nat) : Option (Int × Nat × Int) :=
  if occ.contains i then none else
  match ts.get? i with
  | none => none
  | some tp =>
      let fret := np - tp
      if fret < 0 ∨ cfg.max_fret < fret then none else
      if fret < (fretWindow pt cfg).1 ∨ (fretWindow pt cfg).2 < fret then none else
      if handSepOK cfg other fret then
        some (20 * regionPenalty pt ts.length i
                + |2 * fret - ((fretWindow pt cfg).1 + (fretWindow pt cfg).2)|,
              i, fret)
      else none

/-- `candidates.sort(); candidates[0]` on tuples with pairwise-distinct
string indices: keep the lexicographically smaller of two scored candidates
(the stored fret is determined by the index, so it never decides). -/
def betterCand (a b : Int × Nat × Int) : Int × Nat × Int :=
  if b.1 < a.1 ∨ (b.1 = a.1 ∧ b.2.1 < a.2.1) then b else a

/-- `find_best_target_string` from the source: collect candidates over all
target strings in index order, return the best `(target_string_idx, fret)`,
or `none` for the `(None, None)` failure return. -/
def find_best_target_string (np : Int) (pt : PartType) (ts : List Int)
    (occ : List Nat) (cfg : Config) (other : List Int) : Option (Nat × Int) :=
  match (List.range ts.length).filterMap (candAt np pt ts occ cfg other) with
  | [] => none
  | c :: cs =>
      let b := cs.foldl betterCand c
      some (b.2.1, b.2.2)

/-- The octave shifts tried by `try_octave_shifts`, in source order. -/
def shifts : List Int := [12, -12, 24, -24]

/-- A shifted attempt accepted only when it lands in the preferred region
(the body of the two preferred-region retry loops). -/
def shiftPreferred (np : Int) (pt : PartType) (ts : List Int) (occ : List Nat)
    (cfg : Config) (other : List Int) (d : Int) : Option (Nat × Int) :=
  match find_best_target_string (np + d) pt ts occ cfg other with
  | some (i, f) => if inPreferredRegion pt ts.length i then some (i, f) else none
  | none => none

/-- `try_octave_shifts` from the source: original pitch accepted if in the
preferred region; otherwise octave shifts restricted to the preferred
region; otherwise the original result even in the wrong region; otherwise
unrestricted octave shifts; otherwise failure. -/
def try_octave_shifts (np : Int) (pt : PartType) (ts : List Int)
    (occ : List Nat) (cfg : Config) (other : List Int) : Option (Nat × Int) :=
  match find_best_target_string np pt ts occ cfg other with
  | some (i, f) =>
      if inPreferredRegion pt ts.length i then some (i, f)
      else
        match shifts.findSome? (shiftPreferred np pt ts occ cfg other) with
        | some r => some r
        | none => some (i, f)
  | none =>
      match shifts.findSome? (shiftPreferred np pt ts occ cfg other) with
      | some r => some r
      | none =>
          shifts.findSome? (fun d => find_best_target_string (np + d) pt ts occ cfg other)

example :
    try_octave_shifts 16 .bass [16, 52] [] defaultConfig [] = some (0, 0) := by decide

example :
    try_octave_shifts 52 .melody [16, 52] [0] defaultConfig [0] = some (1, 12) := by decide

/-! ## Temporal merge orchestrator: one column

In `merge_tab_files`, each column of a section starts from fresh
`occupied_strings`, `bass_frets`, `melody_frets`, and processes that
column's events in two passes (all bass events, then all melody events).
A placement writes `target_section[tgt_idx][col]`, which we record as an
ordered list of `(target string, cell)` pairs for the single column being
processed.  The role dicts are keyed by target string; keys are pairwise
distinct (each successful allocation consumes its string), so an insertion
is an append. -/

/-- A recorded cell: a numeric fret or the unplayable sentinel `'X'`. -/
inductive Cell where
  | fret (f : Int)
  | X
deriving DecidableEq

/-- Per-column allocation state of `merge_tab_files`. -/
structure ColState where
  occupied : List Nat
  bassFrets : List (Nat × Int)
  melodyFrets : List (Nat × Int)
  placements : List (Nat × Cell)
deriving DecidableEq

def initColState : ColState := ⟨[], [], [], []⟩

/-- `other_hand_frets = melody_frets if part_type == 'bass' else bass_frets`
(only the fret values are ever read). -/
def otherFrets (st : ColState) (pt : PartType) : List Int :=
  match pt with
  | .bass => st.melodyFrets.map Prod.snd
  | .melody => st.bassFrets.map Prod.snd

/-- The fallback loop `for tgt_idx in range(num_target_strings): if tgt_idx
not in occupied_strings: ... break`: first unoccupied string index, scanning
from `i`. -/
def firstFreeAux (occ : List Nat) : Nat → Nat → Option Nat
  | 0, _ => none
  | n + 1, i => if occ.contains i then firstFreeAux occ n (i + 1) else some i

def firstFree (numStrings : Nat) (occ : List Nat) : Option Nat :=
  firstFreeAux occ numStrings 0

/-- Processing of one event `(part_type, note_pitch)` of the current column:
on allocator success record the fret, occupy the string and extend the
role's collision map; on failure mark the first free string with `'X'`
(dropping the event when every string is occupied, since the `for`/`break`
loop then does nothing). -/
def allocEvent (ts : List Int) (cfg : Config) (st : ColState)
    (pt : PartType) (np : Int) : ColState :=
  match try_octave_shifts np pt ts st.occupied cfg (otherFrets st pt) with
  | some (i, f) =>
      { occupied := i :: st.occupied
        bassFrets := if pt = .bass then st.bassFrets ++ [(i, f)] else st.bassFrets
        melodyFrets := if pt = .melody then st.melodyFrets ++ [(i, f)] else st.melodyFrets
        placements := st.placements ++ [(i, Cell.fret f)] }
  | none =>
      match firstFree ts.length st.occupied with
      | some i =>
          { st with occupied := i :: st.occupied
                    placements := st.placements ++ [(i, Cell.X)] }
      | none => st

/-- One column of the merge: bass pass then melody pass over the column's
events (`for pass_type in ['bass','melody']: for part_type, note_pitch, _ in
events: if part_type != pass_type: continue; ...`). -/
def processColumn (ts : List Int) (cfg : Config)
    (events : List (PartType × Int)) : ColState :=
  let st1 := (events.filter (fun e => e.1 = PartType.bass)).foldl
    (fun s e => allocEvent ts cfg s e.1 e.2) initColState
  (events.filter (fun e => e.1 = PartType.melody)).foldl
    (fun s e => allocEvent ts cfg s e.1 e.2) st1

example :
    processColumn [16, 52] defaultConfig [(.bass, 16), (.melody, 52)] =
      ⟨[1, 0], [(0, 0)], [(1, 12)], [(0, Cell.fret 0), (1, Cell.fret 12)]⟩ := by decide

example :
    processColumn [16] defaultConfig [(.bass, 16), (.bass, 16)] =
      ⟨[0], [(0, 0)], [], [(0, Cell.fret 0)]⟩ := by decide

/-! ## Tab grammar parser (`extract_note_events`) -/

/-- The section-splitting regex `^([A-G][#b]?\d*)\|` of `extract_note_events`
applied to a stripped line: letter, optional accidental, optional digits,
then a pipe.  (The regex is deterministic on this alphabet: a greedy
accidental or digit run can never have to backtrack before `\|`.) -/
def matchTabLabel : List Char → Bool
  | [] => false
  | c :: rest =>
      if 'A' ≤ c ∧ c ≤ 'G' then
        let rest2 :=
          match rest with
          | a :: r => if a = '#' ∨ a = 'b' then r else a :: r
          | [] => []
        match rest2.dropWhile Char.isDigit with
        | '|' :: _ => true
        | _ => false
      else false

/-- Group lines into maximal runs of consecutive tab-labelled lines; a
non-tab line ends the current run; a trailing run is kept; empty runs are
never emitted. -/
def splitSectionsAux : List String → List String → List (List String)
  | [], cur => if cur.isEmpty then [] else [cur]
  | l :: ls, cur =>
      if matchTabLabel (stripChars l.data) then splitSectionsAux ls (cur ++ [l])
      else if cur.isEmpty then splitSectionsAux ls []
      else cur :: splitSectionsAux ls []

def splitSections (lines : List String) : List (List String) :=
  splitSectionsAux lines []

/-- `line.split('|', 1)`: characters before the first pipe and after it;
`none` when the line has no pipe (the source then skips the line). -/
def splitPipe : List Char → Option (List Char × List Char)
  | [] => none
  | c :: cs =>
      if c = '|' then some ([], cs)
      else (splitPipe cs).map (fun p => (c :: p.1, p.2))

/-- `re.sub(r'\d+', '', s)`: remove every digit character. -/
def stripDigits (s : String) : String :=
  String.mk (s.data.filter (fun c => ¬ c.isDigit))

/-- First tuning index whose label matches the line's label exactly or with
its octave digits stripped (the source scans with `break` on first hit). -/
def matchStringIdx (tuning : List String) (label : String) : Option Nat :=
  tuning.findIdx? (fun t => label == t || label == stripDigits t)

/-- The fret-extraction scan over a line body: maximal digit runs become
`(column of first digit, fret)` events when the value is `≤ 24`; other
characters advance the column by one.  The source's `while` loop advances
by at least one character per iteration, so running it with `cs.length`
fuel (each step consumes `≥ 1` character, never exhausting the fuel early)
is the loop itself; structural recursion on the fuel keeps the definition
kernel-reducible. -/
def extractFretsFuel : Nat → List Char → Nat → List (Nat × Nat)
  | 0, _, _ => []
  | _ + 1, [], _ => []
  | fuel + 1, c :: cs, pos =>
      if c.isDigit then
        let run := cs.takeWhile Char.isDigit
        let rest := cs.dropWhile Char.isDigit
        let fret := (c :: run).foldl (fun a d => a * 10 + (d.toNat - 48)) 0
        let tail := extractFretsFuel fuel rest (pos + 1 + run.length)
        if fret ≤ 24 then (pos, fret) :: tail else tail
      else extractFretsFuel fuel cs (pos + 1)

def extractFretsAux (cs : List Char) (pos : Nat) : List (Nat × Nat) :=
  extractFretsFuel cs.length cs pos

/-- Events contributed by one raw line of a section: split at the first
pipe, strip and match the label against the tuning, then scan the body.
Events are `((column, source string index), fret)` writes, in scan order;
the source stores them into a dict, where a later write to the same key
shadows an earlier one (irrelevant to the claims proved here, which only
inspect emptiness). -/
def lineEvents (tuning : List String) (line : String) : List ((Nat × Nat) × Nat) :=
  match splitPipe line.data with
  | none => []
  | some (pre, content) =>
      match matchStringIdx tuning (String.mk (stripChars pre)) with
      | none => []
      | some si => (extractFretsAux content 0).map (fun e => ((e.1, si), e.2))

def sectionEvents (tuning : List String) (sectionLines : List String) :
    List ((Nat × Nat) × Nat) :=
  (sectionLines.map (lineEvents tuning)).flatten

/-- `extract_note_events(lines, source_tuning)`: split into raw sections,
parse each, and keep only sections that produced at least one event
(`if section_events: sections.append(section_events)`). -/
def extract_note_events (lines : List String) (tuning : List String) :
    List (List ((Nat × Nat) × Nat)) :=
  ((splitSections lines).map (sectionEvents tuning)).filter (fun s => !s.isEmpty)

example :
    extract_note_events ["E1|--3--", "", "E1|-----", "", "E1|-7---"] ["E1"] =
      [[((2, 0), 3)], [((1, 0), 7)]] := by decide

/-! ## Renderer (one merged section)

The merged grid of a section is modelled as a partial function
`grid : Nat → Nat → Option Cell` from (target string, column) to its cell
(`target_section[tgt_idx].get(col)`).  Bodies are built as `List Char`,
the faithful image of Python string concatenation. -/

/-- The printed form of a cell: `'X'` for the sentinel, `str(fret)` for a
numeric fret. -/
def cellChars : Cell → List Char
  | .X => ['X']
  | .fret f => (toString f).data

/-- Per-column width: the max of 1 and the printed width of every cell
occupying the column across all target strings (the source special-cases
`'X'` to width 1, which equals `(cellChars .X).length`). -/
def colWidth (n : Nat) (grid : Nat → Nat → Option Cell) (col : Nat) : Nat :=
  (List.range n).foldl
    (fun w i =>
      match grid i col with
      | some c => max w (cellChars c).length
      | none => w) 1

/-- One field of a string's body at a column: the cell's text left-justified
and dash-padded to the column width (`.ljust(col_width, '-')`), or an
all-dash field when unoccupied. -/
def renderField (cw : Nat) : Option Cell → List Char
  | some c => cellChars c ++ List.replicate (cw - (cellChars c).length) '-'
  | none => List.replicate cw '-'

/-- The body of target string `tgt` for a section with maximum column
`maxCol`: the concatenation of its fields over columns `0..maxCol`. -/
def renderLine (n : Nat) (grid : Nat → Nat → Option Cell) (maxCol tgt : Nat) :
    List Char :=
  ((List.range (maxCol + 1)).map
    (fun col => renderField (colWidth n grid col) (grid tgt col))).flatten

/-- A small concrete merged grid (two strings, two columns): target string 0
holds fret 10 (two digits wide) at column 0, string 1 holds the sentinel at
column 1. -/
def gridEx : Nat → Nat → Option Cell := fun i col =>
  if i = 0 ∧ col = 0 then some (Cell.fret 10)
  else if i = 1 ∧ col = 1 then some Cell.X
  else none

/-! ## Allocator lemmas -/

theorem betterCand_cases (a b : Int × Nat × Int) :
    betterCand a b = a ∨ betterCand a b = b := by
  unfold betterCand
  split
  · exact Or.inr rfl
  · exact Or.inl rfl

theorem foldl_betterCand_mem (cs : List (Int × Nat × Int)) (c : Int × Nat × Int) :
    cs.foldl betterCand c = c ∨ cs.foldl betterCand c ∈ cs := by
  induction cs generalizing c with
  | nil => exact Or.inl rfl
  | cons d ds ih =>
      simp only [List.foldl_cons]
      rcases ih (betterCand c d) with h | h
      · rcases betterCand_cases c d with h2 | h2
        · exact Or.inl (h.trans h2)
        · exact Or.inr (by rw [h, h2]; exact List.mem_cons_self d ds)
      · exact Or.inr (List.mem_cons_of_mem d h)

/-- Everything a surviving candidate of `find_best_target_string`'s loop
satisfies: its string index, non-occupancy, the basic and role fret windows,
and the hand-separation check. -/
theorem candAt_eq_some {np : Int} {pt : PartType} {ts : List Int} {occ : List Nat}
    {cfg : Config} {other : List Int} {i : Nat} {x : Int × Nat × Int}
    (h : candAt np pt ts occ cfg other i = some x) :
    x.2.1 = i ∧ occ.contains i = false ∧ i < ts.length ∧
      0 ≤ x.2.2 ∧ x.2.2 ≤ cfg.max_fret ∧
      (fretWindow pt cfg).1 ≤ x.2.2 ∧ x.2.2 ≤ (fretWindow pt cfg).2 ∧
      handSepOK cfg other x.2.2 = true := by
  unfold candAt at h
  split at h
  · simp at h
  · rename_i hocc
    split at h
    · simp at h
    · rename_i tp hget
      dsimp only at h
      split at h
      · simp at h
      · rename_i hbasic
        split at h
        · simp at h
        · rename_i hwin
          split at h
          · rename_i hsep
            simp only [Option.some.injEq] at h
            subst h
            obtain ⟨hlt, -⟩ := List.get?_eq_some.1 hget
            push_neg at hbasic hwin
            exact ⟨rfl, by simpa using hocc, hlt,
              hbasic.1, hbasic.2, hwin.1, hwin.2, hsep⟩
          · simp at h

/-- Postcondition of a successful `find_best_target_string`: the chosen
string was free and in range, and the fret passed the basic range, the
role window and the hand-separation checks. -/
theorem find_best_eq_some {np : Int} {pt : PartType} {ts : List Int}
    {occ : List Nat} {cfg : Config} {other : List Int} {i : Nat} {f : Int}
    (h : find_best_target_string np pt ts occ cfg other = some (i, f)) :
    occ.contains i = false ∧ i < ts.length ∧
      0 ≤ f ∧ f ≤ cfg.max_fret ∧
      (fretWindow pt cfg).1 ≤ f ∧ f ≤ (fretWindow pt cfg).2 ∧
      handSepOK cfg other f = true := by
  unfold find_best_target_string at h
  split at h
  · simp at h
  · rename_i c cs heq
    simp only [Option.some.injEq, Prod.mk.injEq] at h
    have hmem : cs.foldl betterCand c ∈ c :: cs := by
      rcases foldl_betterCand_mem cs c with h1 | h1
      · rw [h1]; exact List.mem_cons_self c cs
      · exact List.mem_cons_of_mem c h1
    rw [← heq] at hmem
    obtain ⟨n, -, hcand⟩ := List.mem_filterMap.1 hmem
    obtain ⟨hidx, hocc, hlt, h0, hmax, hlo, hhi, hsep⟩ := candAt_eq_some hcand
    have hi : i = n := by rw [← h.1, hidx]
    have hf : f = (cs.foldl betterCand c).2.2 := h.2.symm
    subst hi hf
    exact ⟨hidx ▸ hocc, hidx ▸ hlt, h0, hmax, hlo, hhi, hsep⟩

/-- A hit of the preferred-region retry loop comes from
`find_best_target_string` at the shifted pitch and lies in the preferred
region. -/
theorem shiftPreferred_eq_some {np : Int} {pt : PartType} {ts : List Int}
    {occ : List Nat} {cfg : Config} {other : List Int} {d : Int} {r : Nat × Int}
    (h : shiftPreferred np pt ts occ cfg other d = some r) :
    find_best_target_string (np + d) pt ts occ cfg other = some r ∧
      inPreferredRegion pt ts.length r.1 = true := by
  unfold shiftPreferred at h
  split at h
  · rename_i i f heq
    split at h
    · rename_i hpref
      simp only [Option.some.injEq] at h
      subst h
      exact ⟨heq, hpref⟩
    · simp at h
  · simp at h

/-- Every success of `try_octave_shifts` is a success of
`find_best_target_string` at the original or an octave-shifted pitch. -/
theorem try_octave_shifts_eq_some {np : Int} {pt : PartType} {ts : List Int}
    {occ : List Nat} {cfg : Config} {other : List Int} {i : Nat} {f : Int}
    (h : try_octave_shifts np pt ts occ cfg other = some (i, f)) :
    ∃ d, find_best_target_string (np + d) pt ts occ cfg other = some (i, f) := by
  unfold try_octave_shifts at h
  split at h
  · rename_i i0 f0 heq
    split at h
    · simp only [Option.some.injEq, Prod.mk.injEq] at h
      exact ⟨0, by rw [add_zero, heq, h.1, h.2]⟩
    · split at h
      · rename_i r hr
        obtain ⟨d, -, hd⟩ := List.exists_of_findSome?_eq_some hr
        obtain ⟨hfind, -⟩ := shiftPreferred_eq_some hd
        simp only [Option.some.injEq] at h
        exact ⟨d, by rw [hfind, h]⟩
      · simp only [Option.some.injEq, Prod.mk.injEq] at h
        exact ⟨0, by rw [add_zero, heq, h.1, h.2]⟩
  · split at h
    · rename_i r hr
      obtain ⟨d, -, hd⟩ := List.exists_of_findSome?_eq_some hr
      obtain ⟨hfind, -⟩ := shiftPreferred_eq_some hd
      simp only [Option.some.injEq] at h
      exact ⟨d, by rw [hfind, h]⟩
    · obtain ⟨d, -, hd⟩ := List.exists_of_findSome?_eq_some h
      exact ⟨d, hd⟩

/-- Postcondition of a successful `try_octave_shifts`: all pitch-independent
guarantees of `find_best_target_string` carry over. -/
theorem try_octave_shifts_post {np : Int} {pt : PartType} {ts : List Int}
    {occ : List Nat} {cfg : Config} {other : List Int} {i : Nat} {f : Int}
    (h : try_octave_shifts np pt ts occ cfg other = some (i, f)) :
    occ.contains i = false ∧ i < ts.length ∧
      0 ≤ f ∧ f ≤ cfg.max_fret ∧
      (fretWindow pt cfg).1 ≤ f ∧ f ≤ (fretWindow pt cfg).2 ∧
      handSepOK cfg other f = true := by
  obtain ⟨d, hd⟩ := try_octave_shifts_eq_some h
  exact find_best_eq_some hd

/-- C6: octave-shift fallback order.  `try_octave_shifts` equals: the first
pitch among original, +12, −12, +24, −24 (in that order) whose
`find_best_target_string` result lands in the role's preferred region;
otherwise the first of those pitches with any successful placement, even in
the wrong region; otherwise no placement. -/
theorem try_octave_shifts_search_order (np : Int) (pt : PartType) (ts : List Int)
    (occ : List Nat) (cfg : Config) (other : List Int) :
    try_octave_shifts np pt ts occ cfg other =
      match ([0, 12, -12, 24, -24] : List Int).findSome?
          (shiftPreferred np pt ts occ cfg other) with
      | some r => some r
      | none =>
          ([0, 12, -12, 24, -24] : List Int).findSome?
            (fun d => find_best_target_string (np + d) pt ts occ cfg other) := by
  have hlist : ([0, 12, -12, 24, -24] : List Int) = 0 :: shifts := by
    simp [shifts]
  rw [hlist, List.findSome?_cons, List.findSome?_cons]
  unfold try_octave_shifts
  cases hfb : find_best_target_string np pt ts occ cfg other with
  | none =>
      have hsp : shiftPreferred np pt ts occ cfg other 0 = none := by
        simp [shiftPreferred, hfb]
      simp only [hsp, add_zero, hfb]
  | some p =>
      obtain ⟨i, f⟩ := p
      have hsp : shiftPreferred np pt ts occ cfg other 0 =
          (if inPreferredRegion pt ts.length i then some (i, f) else none) := by
        simp [shiftPreferred, hfb]
      cases hpref : inPreferredRegion pt ts.length i with
      | true => simp only [hsp, hpref, if_true]
      | false =>
          simp only [hsp, hpref, if_false, add_zero, hfb]
          cases hps : shifts.findSome? (shiftPreferred np pt ts occ cfg other) <;> simp

/-- C7: every numeric placement the allocator returns (directly or through
octave shifting) is non-negative, at most `max_fret`, at most
`bass_max_fret` for a bass note, and at least `melody_min_fret` for a
melody note. -/
theorem allocator_fret_window (np : Int) (pt : PartType) (ts : List Int)
    (occ : List Nat) (cfg : Config) (other : List Int) (i : Nat) (f : Int)
    (h : find_best_target_string np pt ts occ cfg other = some (i, f) ∨
        try_octave_shifts np pt ts occ cfg other = some (i, f)) :
    0 ≤ f ∧ f ≤ cfg.max_fret ∧
      (pt = PartType.bass → f ≤ cfg.bass_max_fret) ∧
      (pt = PartType.melody → cfg.melody_min_fret ≤ f) := by
  have hpost : 0 ≤ f ∧ f ≤ cfg.max_fret ∧
      (fretWindow pt cfg).1 ≤ f ∧ f ≤ (fretWindow pt cfg).2 := by
    rcases h with h | h
    · obtain ⟨-, -, h0, hmax, hlo, hhi, -⟩ := find_best_eq_some h
      exact ⟨h0, hmax, hlo, hhi⟩
    · obtain ⟨-, -, h0, hmax, hlo, hhi, -⟩ := try_octave_shifts_post h
      exact ⟨h0, hmax, hlo, hhi⟩
  obtain ⟨h0, hmax, hlo, hhi⟩ := hpost
  refine ⟨h0, hmax, ?_, ?_⟩
  · rintro rfl
    simpa [fretWindow] using hhi
  · rintro rfl
    simpa [fretWindow] using hlo

theorem allocator_fret_window_witness :
    (find_best_target_string 16 PartType.bass [16] [] defaultConfig [] = some (0, 0) ∨
        try_octave_shifts 16 PartType.bass [16] [] defaultConfig [] = some (0, 0)) ∧
      (0 ≤ (0 : Int) ∧ (0 : Int) ≤ defaultConfig.max_fret ∧
        (PartType.bass = PartType.bass → (0 : Int) ≤ defaultConfig.bass_max_fret) ∧
        (PartType.bass = PartType.melody → defaultConfig.melody_min_fret ≤ (0 : Int))) :=
  ⟨Or.inl (by decide),
    allocator_fret_window 16 PartType.bass [16] [] defaultConfig [] 0 0 (Or.inl (by decide))⟩

/-! ## Column-state invariants -/

theorem firstFreeAux_eq_some {occ : List Nat} :
    ∀ n i k, firstFreeAux occ n i = some k →
      occ.contains k = false ∧ i ≤ k ∧ k < i + n ∧
        ∀ j, i ≤ j → j < k → occ.contains j = true := by
  intro n
  induction n with
  | zero => intro i k h; simp [firstFreeAux] at h
  | succ n ih =>
      intro i k h
      unfold firstFreeAux at h
      split at h
      · rename_i hc
        obtain ⟨hk, hik, hlt, hall⟩ := ih (i + 1) k h
        refine ⟨hk, by omega, by omega, ?_⟩
        intro j hij hjk
        rcases Nat.eq_or_lt_of_le hij with rfl | hlt2
        · exact hc
        · exact hall j (by omega) hjk
      · rename_i hc
        simp only [Option.some.injEq] at h
        subst h
        exact ⟨by simpa using hc, Nat.le_refl _, by omega,
          fun j hij hjk => absurd hjk (by omega)⟩

theorem firstFreeAux_eq_none {occ : List Nat} :
    ∀ n i, firstFreeAux occ n i = none →
      ∀ j, i ≤ j → j < i + n → occ.contains j = true := by
  intro n
  induction n with
  | zero => intro i h j hij hjn; omega
  | succ n ih =>
      intro i h
      unfold firstFreeAux at h
      split at h
      · rename_i hc
        intro j hij hjn
        rcases Nat.eq_or_lt_of_le hij with rfl | hlt2
        · exact hc
        · exact ih (i + 1) h j (by omega) (by omega)
      · simp at h

/-- `allocEvent` preserves the occupancy bookkeeping: every placed string is
in `occupied`, and no target string carries two placements. -/
theorem allocEvent_occ_inv (ts : List Int) (cfg : Config) (st : ColState)
    (pt : PartType) (np : Int)
    (h1 : ∀ p ∈ st.placements, p.1 ∈ st.occupied)
    (h2 : (st.placements.map Prod.fst).Nodup) :
    (∀ p ∈ (allocEvent ts cfg st pt np).placements,
        p.1 ∈ (allocEvent ts cfg st pt np).occupied) ∧
      ((allocEvent ts cfg st pt np).placements.map Prod.fst).Nodup := by
  have key : ∀ (i : Nat) (c : Cell), i ∉ st.occupied →
      (∀ p ∈ st.placements ++ [(i, c)], p.1 ∈ i :: st.occupied) ∧
        ((st.placements ++ [(i, c)]).map Prod.fst).Nodup := by
    intro i c hnotin
    constructor
    · intro p hp
      rcases List.mem_append.1 hp with hp | hp
      · exact List.mem_cons_of_mem i (h1 p hp)
      · simp only [List.mem_singleton] at hp
        subst hp
        exact List.mem_cons_self i st.occupied
    · rw [List.map_append, List.nodup_append]
      refine ⟨h2, List.nodup_singleton i, ?_⟩
      intro a ha hb
      simp only [List.map_cons, List.map_nil, List.mem_singleton] at hb
      subst hb
      obtain ⟨p, hp, hpi⟩ := List.mem_map.1 ha
      exact hnotin (hpi ▸ h1 p hp)
  unfold allocEvent
  split
  · rename_i i f halloc
    have hocc : st.occupied.contains i = false := (try_octave_shifts_post halloc).1
    exact key i (Cell.fret f) (by simpa using hocc)
  · split
    · rename_i halloc i hff
      obtain ⟨hic, -, -, -⟩ := firstFreeAux_eq_some _ _ _ hff
      exact key i Cell.X (by simpa using hic)
    · exact ⟨h1, h2⟩

/-- `allocEvent` preserves pairwise hand separation between the recorded
bass and melody frets: a new fret passed the `handSepOK` check against the
whole opposing-role record. -/
theorem allocEvent_hand_sep (ts : List Int) (cfg : Config) (st : ColState)
    (pt : PartType) (np : Int)
    (h : ∀ b ∈ st.bassFrets, ∀ m ∈ st.melodyFrets, cfg.hand_separation ≤ |b.2 - m.2|) :
    ∀ b ∈ (allocEvent ts cfg st pt np).bassFrets,
      ∀ m ∈ (allocEvent ts cfg st pt np).melodyFrets,
        cfg.hand_separation ≤ |b.2 - m.2| := by
  unfold allocEvent
  split
  · rename_i i f halloc
    have hsep : ∀ o ∈ otherFrets st pt, cfg.hand_separation ≤ |f - o| := by
      have hs := (try_octave_shifts_post halloc).2.2.2.2.2.2
      simpa [handSepOK, List.all_eq_true] using hs
    cases pt with
    | bass =>
        simp only [otherFrets] at hsep
        intro b hb m hm
        dsimp only at hb hm
        rw [if_pos rfl] at hb
        rw [if_neg (by decide)] at hm
        rcases List.mem_append.1 hb with hb | hb
        · exact h b hb m hm
        · simp only [List.mem_singleton] at hb
          subst hb
          simpa using hsep m.2 (List.mem_map_of_mem Prod.snd hm)
    | melody =>
        simp only [otherFrets] at hsep
        intro b hb m hm
        dsimp only at hb hm
        rw [if_neg (by decide)] at hb
        rw [if_pos rfl] at hm
        rcases List.mem_append.1 hm with hm | hm
        · exact h b hb m hm
        · simp only [List.mem_singleton] at hm
          subst hm
          have := hsep b.2 (List.mem_map_of_mem Prod.snd hb)
          simpa [abs_sub_comm] using this
  · split
    · intro b hb m hm
      exact h b hb m hm
    · exact h

/-- Any property preserved by `allocEvent` is an invariant of a whole pass
over a column's events. -/
theorem foldl_allocEvent_pres (ts : List Int) (cfg : Config) (P : ColState → Prop)
    (hstep : ∀ st pt np, P st → P (allocEvent ts cfg st pt np)) :
    ∀ (evs : List (PartType × Int)) (st : ColState), P st →
      P (evs.foldl (fun s e => allocEvent ts cfg s e.1 e.2) st) := by
  intro evs
  induction evs with
  | nil => intro st h; exact h
  | cons e es ih => intro st h; exact ih _ (hstep st e.1 e.2 h)

/-- C2: occupancy exclusivity.  In a merged column no two placements,
numeric or the sentinel `X`, are recorded on the same target string. -/
theorem occupancy_exclusivity (ts : List Int) (cfg : Config)
    (events : List (PartType × Int)) :
    ((processColumn ts cfg events).placements.map Prod.fst).Nodup := by
  have key := foldl_allocEvent_pres ts cfg
    (fun st => (∀ p ∈ st.placements, p.1 ∈ st.occupied) ∧
      (st.placements.map Prod.fst).Nodup)
    (fun st pt np h => allocEvent_occ_inv ts cfg st pt np h.1 h.2)
  have hfinal : (∀ p ∈ (processColumn ts cfg events).placements,
        p.1 ∈ (processColumn ts cfg events).occupied) ∧
      ((processColumn ts cfg events).placements.map Prod.fst).Nodup :=
    key _ _ (key _ initColState ⟨by simp [initColState], by simp [initColState]⟩)
  exact hfinal.2

/-- C1: hand-separation invariant.  Every accepted numeric bass placement
and every accepted numeric melody placement of the same merged column are at
least `hand_separation` frets apart. -/
theorem hand_separation_invariant (ts : List Int) (cfg : Config)
    (events : List (PartType × Int)) (i j : Nat) (bf mf : Int)
    (hb : (i, bf) ∈ (processColumn ts cfg events).bassFrets)
    (hm : (j, mf) ∈ (processColumn ts cfg events).melodyFrets) :
    cfg.hand_separation ≤ |bf - mf| := by
  have key := foldl_allocEvent_pres ts cfg
    (fun st => ∀ b ∈ st.bassFrets, ∀ m ∈ st.melodyFrets,
      cfg.hand_separation ≤ |b.2 - m.2|)
    (fun st pt np h => allocEvent_hand_sep ts cfg st pt np h)
  have hfinal : ∀ b ∈ (processColumn ts cfg events).bassFrets,
      ∀ m ∈ (processColumn ts cfg events).melodyFrets,
        cfg.hand_separation ≤ |b.2 - m.2| :=
    key _ _ (key _ initColState (by simp [initColState]))
  simpa using hfinal (i, bf) hb (j, mf) hm

theorem hand_separation_invariant_witness :
    ((0, 0) ∈ (processColumn [16, 52] defaultConfig
        [(PartType.bass, 16), (PartType.melody, 52)]).bassFrets) ∧
    ((1, 12) ∈ (processColumn [16, 52] defaultConfig
        [(PartType.bass, 16), (PartType.melody, 52)]).melodyFrets) ∧
    defaultConfig.hand_separation ≤ |(0 : Int) - 12| :=
  ⟨by decide, by decide,
    hand_separation_invariant [16, 52] defaultConfig
      [(PartType.bass, 16), (PartType.melody, 52)] 0 1 0 12 (by decide) (by decide)⟩

/-- C3 counterexample: with a single-string target (`E1`, pitch 16) and two
simultaneous bass notes of pitch 16, the first claims string 0 and the
second fails allocation with every string occupied; the merged column then
records no `X` for it — the event is silently dropped (one placement for
two events), refuting "never loses an event". -/
theorem allocation_failure_dropped_event :
    try_octave_shifts 16 PartType.bass [16] [0] defaultConfig [] = none ∧
    processColumn [16] defaultConfig [(PartType.bass, 16), (PartType.bass, 16)] =
      ColState.mk [0] [(0, 0)] [] [(0, Cell.fret 0)] := by decide

/-- C3 amended: when the allocator reports no placement the merge never
aborts; if at least one target string is still unoccupied at this column,
the note is recorded as the sentinel `X` on the lowest-index unoccupied
string; if every string is occupied, the state is unchanged and the event
is dropped. -/
theorem allocation_failure_marks_X (ts : List Int) (cfg : Config) (st : ColState)
    (pt : PartType) (np : Int)
    (hfail : try_octave_shifts np pt ts st.occupied cfg (otherFrets st pt) = none)
    (hfree : ∃ j, j < ts.length ∧ st.occupied.contains j = false) :
    ∃ i, (allocEvent ts cfg st pt np).placements = st.placements ++ [(i, Cell.X)] ∧
      i < ts.length ∧ st.occupied.contains i = false ∧
      ∀ j, j < i → st.occupied.contains j = true := by
  unfold allocEvent
  rw [hfail]
  cases hff : firstFree ts.length st.occupied with
  | none =>
      obtain ⟨j, hj, hjf⟩ := hfree
      have hall := firstFreeAux_eq_none ts.length 0 hff j (Nat.zero_le j) (by omega)
      rw [hall] at hjf
      cases hjf
  | some i =>
      obtain ⟨hic, -, hlt, hmin⟩ := firstFreeAux_eq_some _ _ _ hff
      exact ⟨i, rfl, by omega, hic, fun j hj => hmin j (Nat.zero_le j) hj⟩

theorem allocation_failure_marks_X_witness :
    (try_octave_shifts 1000 PartType.bass [16, 16]
        (ColState.mk [0] [(0, 0)] [] [(0, Cell.fret 0)]).occupied defaultConfig
        (otherFrets (ColState.mk [0] [(0, 0)] [] [(0, Cell.fret 0)]) PartType.bass) = none) ∧
    (∃ j, j < ([16, 16] : List Int).length ∧
        (ColState.mk [0] [(0, 0)] [] [(0, Cell.fret 0)]).occupied.contains j = false) ∧
    ∃ i, (allocEvent [16, 16] defaultConfig
          (ColState.mk [0] [(0, 0)] [] [(0, Cell.fret 0)]) PartType.bass 1000).placements =
        (ColState.mk [0] [(0, 0)] [] [(0, Cell.fret 0)]).placements ++ [(i, Cell.X)] ∧
      i < ([16, 16] : List Int).length ∧
      (ColState.mk [0] [(0, 0)] [] [(0, Cell.fret 0)]).occupied.contains i = false ∧
      ∀ j, j < i →
        (ColState.mk [0] [(0, 0)] [] [(0, Cell.fret 0)]).occupied.contains j = true :=
  ⟨by decide, ⟨1, by decide, by decide⟩,
    allocation_failure_marks_X [16, 16] defaultConfig
      (ColState.mk [0] [(0, 0)] [] [(0, Cell.fret 0)]) PartType.bass 1000
      (by decide) ⟨1, by decide, by decide⟩⟩

/-- C4 counterexample: merging the bass part (tuning `[E1]`, fret 0 at
column 0, pitch 16) with the melody part (tuning `[E4]`, fret 0, pitch 52)
onto target `[E1, E4]` does NOT place the melody note at fret 0 on string 1:
no `(1, fret 0)` placement is recorded in that column. -/
theorem two_part_merge_example_counterexample :
    note_to_semitones "E1" = some 16 ∧ note_to_semitones "E4" = some 52 ∧
    parse_tuning ["E1", "E4"] = some [16, 52] ∧
    (1, Cell.fret 0) ∉ (processColumn [16, 52] defaultConfig
        [(PartType.bass, 16), (PartType.melody, 52)]).placements := by decide

/-- C4 amended: in that merge the bass note lands on target string 0 at
fret 0, and the melody note lands on target string 1 at fret 12 — the open
fret 0 is below `melody_min_fret` (7) and within `hand_separation` of the
bass fret, so the allocator accepts the `+12` octave shift in the melody
region. -/
theorem two_part_merge_example :
    processColumn [16, 52] defaultConfig [(PartType.bass, 16), (PartType.melody, 52)] =
      ColState.mk [1, 0] [(0, 0)] [(1, 12)] [(0, Cell.fret 0), (1, Cell.fret 12)] := by
  decide

/-- C5: divergence at the flat-wrap boundary.  The source computes
`note_to_semitones("Cb1") = 23` (the pitch of `B1`: the flat wraps only the
pitch class, the octave term `1 * 12` is still added), while
`note_to_semitones("B0") = 11`; the two are NOT equal as the spec claims,
though they agree modulo 12. -/
theorem note_to_semitones_flat_wrap_divergence :
    note_to_semitones "Cb1" = some 23 ∧ note_to_semitones "B0" = some 11 ∧
      note_to_semitones "Cb1" ≠ note_to_semitones "B0" := by decide

/-- C8: divergence on lowercase letters.  The regex
`^([A-G][#b]?)(\d+)$` admits only uppercase note letters, so `"e1"` raises
`InvalidNoteFormat` (modelled as `none`) although `"E1"` parses to 16 — the
`.upper()` normalisations later in the function are unreachable for
lowercase input. -/
theorem note_to_semitones_lowercase_divergence :
    note_to_semitones "E1" = some 16 ∧ note_to_semitones "e1" = none := by decide

/-- C10: every section returned by `extract_note_events` is non-empty — a
maximal run of tab-labelled lines that yields no fret events contributes no
section to the output, shifting the ordinal index of every later section
down. -/
theorem extract_note_events_sections_nonempty (lines tuning : List String)
    (s : List ((Nat × Nat) × Nat)) (h : s ∈ extract_note_events lines tuning) :
    s ≠ [] := by
  unfold extract_note_events at h
  have hp := List.of_mem_filter h
  simpa using hp

theorem extract_note_events_sections_nonempty_witness :
    ([((2, 0), 3)] ∈ extract_note_events ["E1|--3--"] ["E1"]) ∧
      ([((2, 0), 3)] : List ((Nat × Nat) × Nat)) ≠ [] :=
  ⟨by decide,
    extract_note_events_sections_nonempty ["E1|--3--"] ["E1"] [((2, 0), 3)] (by decide)⟩

/-! ## Renderer lemmas -/

theorem foldl_width_le (g : Nat → Option Cell) (l : List Nat) :
    ∀ a : Nat, a ≤ l.foldl (fun w i => match g i with
      | some c => max w (cellChars c).length
      | none => w) a := by
  induction l with
  | nil => intro a; exact Nat.le_refl a
  | cons j l ih =>
      intro a
      simp only [List.foldl_cons]
      rcases hg : g j with _ | c
      · simpa [hg] using ih a
      · simp only [hg]
        exact le_trans (Nat.le_max_left _ _) (ih _)

theorem foldl_width_mem (g : Nat → Option Cell) (l : List Nat) :
    ∀ (a i : Nat), i ∈ l → ∀ c, g i = some c →
      (cellChars c).length ≤ l.foldl (fun w i => match g i with
        | some c => max w (cellChars c).length
        | none => w) a := by
  induction l with
  | nil => intro a i hi; cases hi
  | cons j l ih =>
      intro a i hi c hc
      simp only [List.foldl_cons]
      rcases List.mem_cons.1 hi with rfl | hi
      · rw [hc]
        exact le_trans (Nat.le_max_right _ _) (foldl_width_le g l _)
      · exact ih _ i hi c hc

theorem le_colWidth (n : Nat) (grid : Nat → Nat → Option Cell) (col : Nat) :
    1 ≤ colWidth n grid col :=
  foldl_width_le (fun i => grid i col) (List.range n) 1

theorem cell_le_colWidth (n : Nat) (grid : Nat → Nat → Option Cell) (col t : Nat)
    (ht : t < n) (c : Cell) (hc : grid t col = some c) :
    (cellChars c).length ≤ colWidth n grid col :=
  foldl_width_mem (fun i => grid i col) (List.range n) 1 t (List.mem_range.2 ht) c hc

/-- A rendered field of an in-range target string always has exactly the
column's width. -/
theorem renderField_length (n : Nat) (grid : Nat → Nat → Option Cell) (col t : Nat)
    (ht : t < n) :
    (renderField (colWidth n grid col) (grid t col)).length = colWidth n grid col := by
  cases hg : grid t col with
  | none => simp [renderField]
  | some c =>
      have hle := cell_le_colWidth n grid col t ht c hg
      simp only [renderField, List.length_append, List.length_replicate]
      omega

/-- Every in-range string's rendered body has the same length: the sum of
the per-column widths. -/
theorem renderLine_length (n : Nat) (grid : Nat → Nat → Option Cell)
    (maxCol t : Nat) (ht : t < n) :
    (renderLine n grid maxCol t).length =
      ((List.range (maxCol + 1)).map (colWidth n grid)).sum := by
  unfold renderLine
  rw [List.length_flatten, List.map_map]
  congr 1
  refine List.map_congr_left ?_
  intro col hcol
  exact renderField_length n grid col t ht

/-- C9: rendering alignment.  Each column's width is at least 1 and at
least the printed width of any cell occupying it, every occupied field is
the cell's text left-justified and dash-padded to exactly the column width
(never truncated), and all string bodies of the section have equal
length. -/
theorem rendering_alignment (n : Nat) (grid : Nat → Nat → Option Cell)
    (maxCol t t' col : Nat) (c : Cell)
    (ht : t < n) (ht' : t' < n) (_hcol : col ≤ maxCol) (hc : grid t col = some c) :
    (renderLine n grid maxCol t).length = (renderLine n grid maxCol t').length ∧
      1 ≤ colWidth n grid col ∧
      (cellChars c).length ≤ colWidth n grid col ∧
      renderField (colWidth n grid col) (grid t col) =
        cellChars c ++ List.replicate (colWidth n grid col - (cellChars c).length) '-' ∧
      (renderField (colWidth n grid col) (grid t col)).length = colWidth n grid col := by
  refine ⟨?_, le_colWidth n grid col, cell_le_colWidth n grid col t ht c hc, ?_,
    renderField_length n grid col t ht⟩
  · rw [renderLine_length n grid maxCol t ht, renderLine_length n grid maxCol t' ht']
  · rw [hc]
    rfl

theorem rendering_alignment_witness :
    (0 < 2 ∧ 1 < 2 ∧ 0 ≤ 1 ∧ gridEx 0 0 = some (Cell.fret 10)) ∧
    ((renderLine 2 gridEx 1 0).length = (renderLine 2 gridEx 1 1).length ∧
      1 ≤ colWidth 2 gridEx 0 ∧
      (cellChars (Cell.fret 10)).length ≤ colWidth 2 gridEx 0 ∧
      renderField (colWidth 2 gridEx 0) (gridEx 0 0) =
        cellChars (Cell.fret 10) ++
          List.replicate (colWidth 2 gridEx 0 - (cellChars (Cell.fret 10)).length) '-' ∧
      (renderField (colWidth 2 gridEx 0) (gridEx 0 0)).length = colWidth 2 gridEx 0) :=
  ⟨⟨by decide, by decide, by decide, by decide⟩,
    rendering_alignment 2 gridEx 1 0 1 0 (Cell.fret 10)
      (by decide) (by decide) (by decide) (by decide)⟩

end TabConverter
